import Mathlib

/-!
Verification of the log parsing, file reading, session-table and download
logic of the log-viewer application (app.py).

Strings are modelled as `List Char`.  The regular expression used by
`parse_log_line`,

  request_id: ([^,]+), ([^,]+), ([^,]+), ([^,]+), (INFO|ERROR): (.*), extra_info: (.+)

with DOTALL, applied via `re.search`, is embedded as a deterministic
matcher: each `[^,]+, ` group must stop at the first comma (a shorter match
would put a non-comma where the literal comma is required), the alternation
`INFO|ERROR` is a plain two-way prefix test, and the greedy `(.*), extra_info: (.+)`
splits at the rightmost occurrence of the separator that is followed by at
least one character.  `re.search` tries every start position from the left,
which is the `log_pattern_search` recursion below.

`json.loads` (an external library) is modelled by an arbitrary decoder
parameter `decode : List Char → Option J`; success stores the decoded value,
failure stores the raw payload, exactly as the try/except in the source.
`requests.get` and the filesystem are likewise modelled by explicit
response/storage values.
-/

namespace LogViewer

/-- The literal separator ", extra_info: " (14 characters). -/
def sep14 : List Char := [',', ' ', 'e', 'x', 't', 'r', 'a', '_', 'i', 'n', 'f', 'o', ':', ' ']

/-- The literal "request_id: " that anchors the log pattern (12 characters). -/
def ridLit : List Char := ['r', 'e', 'q', 'u', 'e', 's', 't', '_', 'i', 'd', ':', ' ']

/-- The separator without its leading comma (13 characters). -/
def sepTail : List Char := [' ', 'e', 'x', 't', 'r', 'a', '_', 'i', 'n', 'f', 'o', ':', ' ']

/-- The severity token "INFO". -/
def infoSev : List Char := ['I', 'N', 'F', 'O']

/-- The severity token "ERROR". -/
def errorSev : List Char := ['E', 'R', 'R', 'O', 'R']

/-- One `[^,]+, ` group of the regex: the (nonempty) run of non-comma
characters, which must be followed by a comma and a space. -/
def takeField (s : List Char) : Option (List Char × List Char) :=
  match s.dropWhile (fun c => c != ',') with
  | ',' :: ' ' :: rest =>
    let f := s.takeWhile (fun c => c != ',')
    if f.isEmpty then none else some (f, rest)
  | _ => none

/-- The `(INFO|ERROR): ` group of the regex. -/
def matchSeverity (s : List Char) : Option (List Char × List Char) :=
  if (infoSev ++ [':', ' ']).isPrefixOf s then some (infoSev, s.drop 6)
  else if (errorSev ++ [':', ' ']).isPrefixOf s then some (errorSev, s.drop 7)
  else none

/-- The greedy `(.*), extra_info: (.+)` tail of the regex: split at the
rightmost occurrence of `sep14` that is followed by at least one character. -/
def splitLastSep : List Char → Option (List Char × List Char)
  | [] => none
  | c :: t =>
    match splitLastSep t with
    | some (m, e) => some (c :: m, e)
    | none =>
      if sep14.isPrefixOf (c :: t) && decide (14 < (c :: t).length) then
        some ([], (c :: t).drop 14)
      else none

/-- The groupdict produced by a successful match of the log pattern
(`extra_info` still the raw payload text). -/
structure LogData where
  request_id : List Char
  date_time : List Char
  file_name : List Char
  function_name : List Char
  message_type : List Char
  message : List Char
  extra_info : List Char
deriving DecidableEq

/-- One attempt of the log pattern at the current position
(`re.match` semantics at a fixed start). -/
def matchHere (s : List Char) : Option LogData :=
  if ridLit.isPrefixOf s then
    match takeField (s.drop ridLit.length) with
    | none => none
    | some (rid, s1) =>
      match takeField s1 with
      | none => none
      | some (dt, s2) =>
        match takeField s2 with
        | none => none
        | some (fn, s3) =>
          match takeField s3 with
          | none => none
          | some (fname, s4) =>
            match matchSeverity s4 with
            | none => none
            | some (sv, s5) =>
              match splitLastSep s5 with
              | none => none
              | some (msg, ei) =>
                some ⟨rid, dt, fn, fname, sv, msg, ei⟩
  else none

/-- `re.search` of the log pattern: try each start position from the left. -/
def log_pattern_search : List Char → Option LogData
  | [] => none
  | c :: t =>
    match matchHere (c :: t) with
    | some g => some g
    | none => log_pattern_search t

/-- The `extra_info` of a parsed record: either the decoded structure or the
raw payload string (the try/except around `json.loads`). -/
inductive ExtraInfo (J : Type) where
  | structured (v : J)
  | raw (s : List Char)
deriving DecidableEq

/-- A fully parsed log record. -/
structure LogRecord (J : Type) where
  request_id : List Char
  date_time : List Char
  file_name : List Char
  function_name : List Char
  message_type : List Char
  message : List Char
  extra_info : ExtraInfo J
deriving DecidableEq

/-- Embedding of `parse_log_line` from app.py: search the pattern, then try
to decode the payload, falling back to the raw string on failure. -/
def parse_log_line {J : Type} (decode : List Char → Option J) (line : List Char) :
    Option (LogRecord J) :=
  match log_pattern_search line with
  | none => none
  | some g =>
    some { request_id := g.request_id, date_time := g.date_time,
           file_name := g.file_name, function_name := g.function_name,
           message_type := g.message_type, message := g.message,
           extra_info := match decode g.extra_info with
                         | some v => ExtraInfo.structured v
                         | none => ExtraInfo.raw g.extra_info }

/-- Boolean substring occurrence test (Python's `in` on strings). -/
def occursB (p : List Char) : List Char → Bool
  | [] => p.isEmpty
  | c :: t => p.isPrefixOf (c :: t) || occursB p t

/-- A well-formed `[^,]+` field: nonempty and comma-free. -/
def okField (f : List Char) : Prop := f ≠ [] ∧ ∀ c ∈ f, c ≠ ','

instance (f : List Char) : Decidable (okField f) := by
  unfold okField; infer_instance

/-- A blob beginning with the four comma-delimited fields, followed by an
arbitrary tail (which a conforming record continues with the severity). -/
def withFields (f1 f2 f3 f4 tail : List Char) : List Char :=
  ridLit ++ f1 ++ ',' :: ' ' :: f2 ++ ',' :: ' ' :: f3 ++ ',' :: ' ' :: f4 ++
    ',' :: ' ' :: tail

/-- A fully grammar-conforming record blob. -/
def recBlob (f1 f2 f3 f4 sv msg extra : List Char) : List Char :=
  withFields f1 f2 f3 f4 (sv ++ ':' :: ' ' :: msg ++ sep14 ++ extra)

/-! ### Log File Reader (`load_logs` in app.py)

A file is modelled as its list of physical lines (each already stripped of
its trailing newline, as by `line.rstrip` in the source).  The loop keeps a
buffer; a line is appended with a newline unless the buffer is empty, in
which case the line replaces the buffer (`if buffer: ... else: ...`).  When
the current line contains `sep14` the buffer is parsed and reset; a nonempty
buffer remaining at end of file is parsed as well. -/

/-- One buffer-accumulation step of the `load_logs` loop. -/
def pyStep (b l : List Char) : List Char :=
  if b.isEmpty then l else b ++ '\n' :: l

/-- Accumulate a run of lines into a buffer, starting from `b`. -/
def pyFold (b : List Char) (c : List (List Char)) : List Char :=
  c.foldl pyStep b

/-- The sequence of blobs the `load_logs` loop hands to the parser. -/
def flushBlobs (b : List Char) : List (List Char) → List (List Char)
  | [] => if b.isEmpty then [] else [b]
  | l :: rest =>
    let b1 := pyStep b l
    if occursB sep14 l then b1 :: flushBlobs [] rest
    else flushBlobs b1 rest

/-- The record-accumulating loop of `load_logs`, for one file. -/
def loadLoop {J : Type} (decode : List Char → Option J) (b : List Char) :
    List (List Char) → List (LogRecord J)
  | [] =>
    if b.isEmpty then []
    else
      match parse_log_line decode b with
      | some r => [r]
      | none => []
  | l :: rest =>
    let b1 := pyStep b l
    if occursB sep14 l then
      (match parse_log_line decode b1 with
       | some r => [r]
       | none => []) ++ loadLoop decode [] rest
    else loadLoop decode b1 rest

/-- Parse one file's lines into records (`load_logs`, inner loop). -/
def load_logs_file {J : Type} (decode : List Char → Option J)
    (lines : List (List Char)) : List (LogRecord J) :=
  loadLoop decode [] lines

/-- Split a line list into the delimiter-terminated chunks and the trailing
run of delimiter-free lines.  Each chunk ends at a line containing `sep14`. -/
def splitChunks : List (List Char) → List (List (List Char)) × List (List Char)
  | [] => ([], [])
  | l :: rest =>
    if occursB sep14 l then ([l] :: (splitChunks rest).1, (splitChunks rest).2)
    else
      match splitChunks rest with
      | (c :: cs, tl) => ((l :: c) :: cs, tl)
      | ([], tl) => ([], l :: tl)

/-- The newline-accumulating join of a chunk of lines, starting empty. -/
def pyJoin (c : List (List Char)) : List Char := pyFold [] c

/-- Newline-prefixed concatenation of lines (the text a nonempty buffer
grows by when these lines are appended). -/
def nlCat : List (List Char) → List Char
  | [] => []
  | l :: ls => '\n' :: l ++ nlCat ls

/-- The plain newline join of a list of lines. -/
def joinNL : List (List Char) → List Char
  | [] => []
  | l :: ls => l ++ nlCat ls

/-- The conditional end-of-file flush: a nonempty leftover buffer is emitted. -/
def finalPart (x : List Char) : List (List Char) :=
  if x.isEmpty then [] else [x]

/-- The blob list produced from chunks `cs` and trailing lines `tl`, with the
first chunk continuing buffer `b`. -/
def packBlobs (b : List Char) (cs : List (List (List Char))) (tl : List (List Char)) :
    List (List Char) :=
  match cs with
  | [] => finalPart (pyFold b tl)
  | c :: cs2 => pyFold b c :: (cs2.map pyJoin ++ finalPart (pyJoin tl))

/-- A file entry of the local log folder. -/
structure FileEntry where
  name : List Char
  lines : List (List Char)
deriving DecidableEq

/-- Does a file name match the glob pattern `*.log`?  (Names starting with a
dot are hidden from the glob; otherwise the name must end in ".log".) -/
def matchesLogGlob (name : List Char) : Bool :=
  match name with
  | [] => false
  | c :: t => (c != '.') && (".log".data).isSuffixOf (c :: t)

/-- Embedding of `load_logs` from app.py.  The folder is `none` when the
directory does not exist; `glob` then yields no files.  Only `*.log` entries
are read, each through the buffer loop above. -/
def load_logs {J : Type} (decode : List Char → Option J)
    (folder : Option (List FileEntry)) : List (LogRecord J) :=
  match folder with
  | none => []
  | some entries =>
    ((entries.filter (fun e => matchesLogGlob e.name)).map
      (fun e => load_logs_file decode e.lines)).flatten

/-! ### Session Table Builder (`main`, lines 148-215 of app.py)

Timestamps are modelled as rational seconds.  The display columns other than
`request_id` and `date_time` are untouched by the builder and carried as an
opaque `payload`. -/

/-- A tabular record as handed to the session-table logic. -/
structure SRow where
  request_id : List Char
  date_time : ℚ
  payload : List Char
deriving DecidableEq

/-- Insert into a list sorted by `le` (stable insertion). -/
def insertSortedBy (le : SRow → SRow → Bool) (x : SRow) : List SRow → List SRow
  | [] => [x]
  | y :: t => if le x y then x :: y :: t else y :: insertSortedBy le x t

/-- Insertion sort with comparator `le`. -/
def sortRowsBy (le : SRow → SRow → Bool) (l : List SRow) : List SRow :=
  l.foldr (insertSortedBy le) []

/-- `df.sort_values(by=['date_time'])` (ascending). -/
def sortByTime (l : List SRow) : List SRow :=
  sortRowsBy (fun a b => decide (a.date_time ≤ b.date_time)) l

/-- `df.sort_values(by='date_time', ascending=False)`. -/
def sortByTimeDesc (l : List SRow) : List SRow :=
  sortRowsBy (fun a b => decide (b.date_time ≤ a.date_time)) l

/-- Rounding to two decimal places (round to nearest on the scaled value;
no statement below depends on the tie-breaking direction). -/
def round2 (q : ℚ) : ℚ := ((round (q * 100) : ℤ) : ℚ) / 100

/-- Last-seen timestamp per request id (assoc list, most recent first). -/
def lookupAssoc (rid : List Char) : List (List Char × ℚ) → Option ℚ
  | [] => none
  | (r, t) :: rest => if r = rid then some t else lookupAssoc rid rest

/-- Per-row time gaps: `groupby('request_id')['date_time'].diff().fillna(0)`.
`seen` carries the timestamps of the rows already passed. -/
def diffsFrom (seen : List (List Char × ℚ)) : List SRow → List ℚ
  | [] => []
  | r :: rest =>
    (match lookupAssoc r.request_id seen with
     | some t => r.date_time - t
     | none => 0) ::
      diffsFrom ((r.request_id, r.date_time) :: seen) rest

/-- The `time_diff_sec` column: per-group gaps, rounded to 2 decimals. -/
def time_diff_sec (l : List SRow) : List ℚ :=
  (diffsFrom [] l).map round2

/-- `round(df['time_diff_sec'].sum(), 2)`. -/
def total_time_sec (l : List SRow) : ℚ :=
  round2 (time_diff_sec l).sum

/-- Push the rows of `pre` onto the seen-timestamps list. -/
def pushSeen (seen : List (List Char × ℚ)) (pre : List SRow) :
    List (List Char × ℚ) :=
  pre.foldl (fun s p => (p.request_id, p.date_time) :: s) seen

/-- The last row of `pre` carrying the given request id. -/
def lastSame (rid : List Char) (pre : List SRow) : Option SRow :=
  pre.foldl (fun acc p => if p.request_id = rid then some p else acc) none

/-- The immediately preceding row (in `l`, before position `i`) with the same
request id as `r`. -/
def lastPrevSame (l : List SRow) (i : Nat) (r : SRow) : Option SRow :=
  lastSame r.request_id (l.take i)

/-- The date-range filter: `df[(df['date_time'] >= start) & (df['date_time'] <= end)]`. -/
def dateFilter (lo hi : ℚ) (l : List SRow) : List SRow :=
  l.filter (fun r => decide (lo ≤ r.date_time) && decide (r.date_time ≤ hi))

/-- The request-id filter: `df[df['request_id'].isin(request_ids)]`. -/
def ridFilter (ids : List (List Char)) (l : List SRow) : List SRow :=
  l.filter (fun r => decide (r.request_id ∈ ids))

/-! ### Download step (`download_log_file` and the sync loop in `main`) -/

/-- An HTTP response, as delivered by the transport (`requests.get`). -/
structure HttpResponse where
  status : Nat
  content : List Nat
deriving DecidableEq

/-- Local storage: the set of created directories and the written files
(most recent write first). -/
structure Storage where
  dirs : List (List Char)
  files : List (List Char × List Nat)
deriving DecidableEq

/-- `os.path.join(save_dir, filename)`. -/
def pathJoin (d f : List Char) : List Char := d ++ '/' :: f

/-- Read back a written file (the most recent write wins). -/
def lookupFile (p : List Char) : List (List Char × List Nat) → Option (List Nat)
  | [] => none
  | (q, c) :: rest => if q = p then some c else lookupFile p rest

/-- Embedding of `download_log_file`: on status 200, create the folder and
write the body at `save_dir/filename`, returning True; otherwise return
False and leave storage untouched.  `resp` stands for the response that
`requests.get` delivers for this file. -/
def download_log_file (resp : HttpResponse) (save_dir filename : List Char)
    (s : Storage) : Bool × Storage :=
  if resp.status = 200 then
    (true, { dirs := save_dir :: s.dirs,
             files := (pathJoin save_dir filename, resp.content) :: s.files })
  else (false, s)

/-- The per-file sync loop of `main`: download every listed file, counting
successes; a failed file does not stop the loop. -/
def syncBatch (resps : List Char → HttpResponse) (folder_path : List Char)
    (files : List (List Char)) (s : Storage) : Nat × Storage :=
  match files with
  | [] => (0, s)
  | f :: rest =>
    let r1 := download_log_file (resps f) folder_path f s
    let r2 := syncBatch resps folder_path rest r1.2
    ((if r1.1 then 1 else 0) + r2.1, r2.2)

/-! ### Concrete inputs used by the witnesses and counterexamples -/

/-- Three records of one request id at T0, T0+5s, T0+7.5s. -/
def exRows : List SRow :=
  [⟨"req1".data, 0, []⟩, ⟨"req1".data, 5, []⟩, ⟨"req1".data, 15/2, []⟩]

/-- Two records of one request id, 10 seconds apart. -/
def exPair : List SRow :=
  [⟨"req1".data, 0, []⟩, ⟨"req1".data, 10, []⟩]

/-- A decoder that always fails (payload kept as raw string). -/
def decodeNone : List Char → Option Unit := fun _ => none

/-- A decoder that always succeeds with the payload itself. -/
def decodeId : List Char → Option (List Char) := fun s => some s

/-- A grammar-conforming blob with a separator embedded in the message. -/
def exBlobA : List Char :=
  "request_id: a, b, c, d, INFO: m, extra_info: no, extra_info: yes".data

/-- A blob whose last separator occurrence is at the very end. -/
def exBlobTrail : List Char :=
  "request_id: a, b, c, d, INFO: m, extra_info: x, extra_info: ".data

/-- A simple grammar-conforming blob. -/
def exBlobGood : List Char :=
  "request_id: a, b, c, d, INFO: m, extra_info: x".data

/-- A prefix that itself contains the "request_id: " marker. -/
def exBadPre : List Char :=
  "request_id: p, q, r, s, INFO: zzz\n".data

/-- A line containing the separator. -/
def exSepLine : List Char := "x, extra_info: y".data

/-- An empty physical line followed by a delimiter line. -/
def exLines : List (List Char) := [[], exSepLine]

/-- Responses for the batch witness: `a.log` fails, everything else succeeds. -/
def exResps : List Char → HttpResponse :=
  fun f => if f = "a.log".data then ⟨404, []⟩ else ⟨200, [7]⟩

/-! ## Basic list facts used throughout -/

theorem take_len_app {α : Type} (a b : List α) : (a ++ b).take a.length = a :=
  List.take_left a b

theorem drop_len_app {α : Type} (a b : List α) : (a ++ b).drop a.length = b :=
  List.drop_left a b

theorem take_len_add {α : Type} (a b : List α) (n : Nat) :
    (a ++ b).take (a.length + n) = a ++ b.take n := by
  induction a with
  | nil => simp
  | cons c t ih => simp [Nat.succ_add, ih]

theorem drop_len_add {α : Type} (a b : List α) (n : Nat) :
    (a ++ b).drop (a.length + n) = b.drop n := by
  induction a with
  | nil => simp
  | cons c t ih => simp [Nat.succ_add, ih]

theorem drop_app_of_le {α : Type} (a b : List α) (n : Nat) (h : n ≤ a.length) :
    (a ++ b).drop n = a.drop n ++ b := by
  induction a generalizing n with
  | nil =>
    simp at h
    subst h
    simp
  | cons c t ih =>
    cases n with
    | zero => simp
    | succ m => simpa using ih m (by simpa using h)

/-- Characterisation of the boolean `isPrefixOf`. -/
theorem isPrefixOf_iff {p s : List Char} : p.isPrefixOf s = true ↔ ∃ t, s = p ++ t := by
  induction p generalizing s with
  | nil => simp [List.isPrefixOf]
  | cons c p ih =>
    cases s with
    | nil => simp [List.isPrefixOf]
    | cons d t =>
      simp only [List.isPrefixOf, Bool.and_eq_true, beq_iff_eq, ih, List.cons_append,
        List.cons.injEq]
      constructor
      · rintro ⟨h1, u, h2⟩
        exact ⟨u, h1.symm, h2⟩
      · rintro ⟨u, h1, h2⟩
        exact ⟨h1.symm, u, h2⟩

/-- Characterisation of the boolean substring test. -/
theorem occursB_iff {p l : List Char} : occursB p l = true ↔ ∃ u v, l = u ++ p ++ v := by
  induction l with
  | nil =>
    simp only [occursB, List.isEmpty_iff]
    constructor
    · rintro rfl
      exact ⟨[], [], rfl⟩
    · rintro ⟨u, v, h⟩
      rcases List.append_eq_nil.mp h.symm with ⟨h1, h2⟩
      exact (List.append_eq_nil.mp h1).2
  | cons c t ih =>
    simp only [occursB, Bool.or_eq_true, isPrefixOf_iff, ih]
    constructor
    · rintro (⟨w, hw⟩ | ⟨u, v, huv⟩)
      · exact ⟨[], w, by simpa using hw⟩
      · exact ⟨c :: u, v, by simp [huv]⟩
    · rintro ⟨u, v, huv⟩
      cases u with
      | nil => exact Or.inl ⟨v, by simpa using huv⟩
      | cons c2 u2 =>
        simp only [List.cons_append, List.cons.injEq] at huv
        exact Or.inr ⟨u2, v, huv.2⟩

theorem occursB_of_decomp {p l : List Char} (u v : List Char) (h : l = u ++ p ++ v) :
    occursB p l = true :=
  occursB_iff.mpr ⟨u, v, h⟩

theorem not_decomp_of_occursB_false {p l : List Char} (h : occursB p l = false)
    (u v : List Char) : l ≠ u ++ p ++ v := by
  intro hl
  rw [occursB_of_decomp u v hl] at h
  simp at h

/-! ## The field matcher -/

theorem takeWhile_app_of_all {p : Char → Bool} {f : List Char}
    (h : ∀ c ∈ f, p c = true) (x : List Char) :
    (f ++ x).takeWhile p = f ++ x.takeWhile p := by
  induction f with
  | nil => simp
  | cons c t ih =>
    have hc := h c (by simp)
    simp only [List.cons_append, List.takeWhile_cons, hc, if_true]
    simp [ih fun d hd => h d (by simp [hd])]

theorem dropWhile_app_of_all {p : Char → Bool} {f : List Char}
    (h : ∀ c ∈ f, p c = true) (x : List Char) :
    (f ++ x).dropWhile p = x.dropWhile p := by
  induction f with
  | nil => simp
  | cons c t ih =>
    have hc := h c (by simp)
    simp only [List.cons_append, List.dropWhile_cons, hc, if_true]
    exact ih fun d hd => h d (by simp [hd])

theorem takeField_sound {s f r : List Char} (h : takeField s = some (f, r)) :
    s = f ++ ',' :: ' ' :: r ∧ okField f := by
  simp only [takeField] at h
  split at h
  · next rest heq =>
    split at h
    · exact absurd h (by simp)
    · next hne =>
      injection h with h
      injection h with h1 h2
      subst h1; subst h2
      refine ⟨?_, ?_, ?_⟩
      · conv_lhs => rw [← List.takeWhile_append_dropWhile (fun c => c != ',') s]
        rw [heq]
      · simpa [List.isEmpty_iff] using hne
      · intro c hc
        have := List.mem_takeWhile_imp hc
        simpa using this
  · exact absurd h (by simp)

theorem takeField_app {f : List Char} (r : List Char) (hf : okField f) :
    takeField (f ++ ',' :: ' ' :: r) = some (f, r) := by
  have hall : ∀ c ∈ f, (fun c => c != ',') c = true := by
    intro c hc
    simpa using hf.2 c hc
  unfold takeField
  rw [dropWhile_app_of_all hall, takeWhile_app_of_all hall]
  simp [List.dropWhile, List.takeWhile, List.isEmpty_iff, hf.1]

/-! ## The severity matcher -/

theorem matchSeverity_sound {s v r : List Char} (h : matchSeverity s = some (v, r)) :
    s = v ++ ':' :: ' ' :: r ∧ (v = infoSev ∨ v = errorSev) := by
  unfold matchSeverity at h
  split at h
  · next hpre =>
    injection h with h
    injection h with h1 h2
    subst h1; subst h2
    obtain ⟨t, ht⟩ := isPrefixOf_iff.mp hpre
    refine ⟨?_, Or.inl rfl⟩
    rw [ht]
    have hdrop : ((infoSev ++ [':', ' ']) ++ t).drop 6 = t := by
      rw [show (6 : Nat) = (infoSev ++ [':', ' ']).length from rfl, drop_len_app]
    rw [hdrop]
    rfl
  · split at h
    · next hpre =>
      injection h with h
      injection h with h1 h2
      subst h1; subst h2
      obtain ⟨t, ht⟩ := isPrefixOf_iff.mp hpre
      refine ⟨?_, Or.inr rfl⟩
      rw [ht]
      have hdrop : ((errorSev ++ [':', ' ']) ++ t).drop 7 = t := by
        rw [show (7 : Nat) = (errorSev ++ [':', ' ']).length from rfl, drop_len_app]
      rw [hdrop]
      rfl
    · exact absurd h (by simp)

theorem matchSeverity_info (r : List Char) :
    matchSeverity (infoSev ++ ':' :: ' ' :: r) = some (infoSev, r) := by
  have hsh : infoSev ++ ':' :: ' ' :: r = (infoSev ++ [':', ' ']) ++ r := by simp
  have hpre : (infoSev ++ [':', ' ']).isPrefixOf (infoSev ++ ':' :: ' ' :: r) = true :=
    isPrefixOf_iff.mpr ⟨r, hsh⟩
  unfold matchSeverity
  rw [hpre]
  simp only [if_true]
  rw [hsh, show (6 : Nat) = (infoSev ++ [':', ' ']).length from rfl, drop_len_app]

theorem matchSeverity_error (r : List Char) :
    matchSeverity (errorSev ++ ':' :: ' ' :: r) = some (errorSev, r) := by
  have hsh : errorSev ++ ':' :: ' ' :: r = (errorSev ++ [':', ' ']) ++ r := by simp
  have hpre2 : (errorSev ++ [':', ' ']).isPrefixOf (errorSev ++ ':' :: ' ' :: r) = true :=
    isPrefixOf_iff.mpr ⟨r, hsh⟩
  have hpre1 : (infoSev ++ [':', ' ']).isPrefixOf (errorSev ++ ':' :: ' ' :: r) = false := by
    rw [Bool.eq_false_iff]
    intro hc
    obtain ⟨t, ht⟩ := isPrefixOf_iff.mp hc
    simp only [infoSev, errorSev, List.cons_append, List.append_assoc,
      List.cons.injEq] at ht
    exact absurd ht.1 (by decide)
  unfold matchSeverity
  rw [hpre1, hpre2]
  simp only [Bool.false_eq_true, if_false, if_true]
  rw [hsh, show (7 : Nat) = (errorSev ++ [':', ' ']).length from rfl, drop_len_app]

/-! ## The greedy message/payload split -/

theorem sep14_cons : sep14 = ',' :: sepTail := rfl

theorem splitLastSep_cons_some {c : Char} {t m e : List Char}
    (hs : splitLastSep t = some (m, e)) :
    splitLastSep (c :: t) = some (c :: m, e) := by
  simp only [splitLastSep.eq_2, hs]

theorem splitLastSep_cons_none {c : Char} {t : List Char} (hs : splitLastSep t = none) :
    splitLastSep (c :: t) =
      if sep14.isPrefixOf (c :: t) && decide (14 < (c :: t).length) then
        some ([], (c :: t).drop 14)
      else none := by
  simp only [splitLastSep.eq_2, hs]

theorem splitLastSep_isSome : ∀ (m e : List Char), e ≠ [] →
    (splitLastSep (m ++ sep14 ++ e)).isSome = true := by
  intro m
  induction m with
  | nil =>
    intro e he
    have hco : ([] : List Char) ++ sep14 ++ e = ',' :: (sepTail ++ e) := by
      simp [sep14_cons]
    rw [hco]
    cases hs : splitLastSep (sepTail ++ e) with
    | some p =>
      obtain ⟨p1, p2⟩ := p
      rw [splitLastSep_cons_some hs]
      simp
    | none =>
      have hA : sep14.isPrefixOf (',' :: (sepTail ++ e)) = true :=
        isPrefixOf_iff.mpr ⟨e, by simp [sep14_cons]⟩
      have hB : decide (14 < (',' :: (sepTail ++ e)).length) = true := by
        simp only [decide_eq_true_eq]
        have := List.length_pos.mpr he
        simp [sepTail]
        omega
      rw [splitLastSep_cons_none hs, hA, hB]
      simp
  | cons c m ih =>
    intro e he
    have hco : (c :: m) ++ sep14 ++ e = c :: (m ++ sep14 ++ e) := by simp
    rw [hco]
    have := ih e he
    cases hs : splitLastSep (m ++ sep14 ++ e) with
    | none => rw [hs] at this; simp at this
    | some p =>
      obtain ⟨p1, p2⟩ := p
      rw [splitLastSep_cons_some hs]
      simp

theorem splitLastSep_sound : ∀ {r m e : List Char}, splitLastSep r = some (m, e) →
    r = m ++ sep14 ++ e ∧ e ≠ [] ∧ ∀ m2 e2, e = m2 ++ sep14 ++ e2 → e2 = [] := by
  intro r
  induction r with
  | nil => intro m e h; simp [splitLastSep.eq_1] at h
  | cons c t ih =>
    intro m e h
    cases hs : splitLastSep t with
    | some p =>
      obtain ⟨p1, p2⟩ := p
      rw [splitLastSep_cons_some hs] at h
      simp only [Option.some.injEq, Prod.mk.injEq] at h
      obtain ⟨h1, h2⟩ := h
      subst h1
      subst h2
      obtain ⟨ht, hne, hlast⟩ := ih hs
      refine ⟨by simp [ht], hne, hlast⟩
    | none =>
      rw [splitLastSep_cons_none hs] at h
      split at h
      · next hcond =>
        simp only [Option.some.injEq, Prod.mk.injEq] at h
        obtain ⟨h1, h2⟩ := h
        subst h1
        rw [Bool.and_eq_true] at hcond
        obtain ⟨hA, hB⟩ := hcond
        obtain ⟨u, hu⟩ := isPrefixOf_iff.mp hA
        have hlen : 14 < (c :: t).length := by
          simpa [decide_eq_true_eq] using hB
        have hdrop : (c :: t).drop 14 = u := by
          rw [hu, show (14 : Nat) = sep14.length from rfl, drop_len_app]
        rw [hdrop] at h2
        subst h2
        have hune : u ≠ [] := by
          intro hnil
          rw [hu, hnil] at hlen
          have h14 : sep14.length = 14 := rfl
          simp only [List.append_nil] at hlen
          omega
        refine ⟨by simp [hu], hune, ?_⟩
        intro m2 e2 he2
        by_contra hne2
        have htt : t = sepTail ++ u := by
          rw [sep14_cons] at hu
          simp only [List.cons_append, List.cons.injEq] at hu
          exact hu.2
        have htd : t = (sepTail ++ m2) ++ sep14 ++ e2 := by
          rw [htt, he2]
          simp
        have := splitLastSep_isSome (sepTail ++ m2) e2 hne2
        rw [← htd, hs] at this
        simp at this
      · exact absurd h (by simp)

theorem splitLastSep_complete : ∀ (m e : List Char), e ≠ [] →
    (∀ m2 e2, m ++ sep14 ++ e = m2 ++ sep14 ++ e2 → e2 ≠ [] → m2.length ≤ m.length) →
    splitLastSep (m ++ sep14 ++ e) = some (m, e) := by
  intro m
  induction m with
  | nil =>
    intro e he hR
    have hco : ([] : List Char) ++ sep14 ++ e = ',' :: (sepTail ++ e) := by
      simp [sep14_cons]
    rw [hco]
    cases hs : splitLastSep (sepTail ++ e) with
    | some p =>
      exfalso
      obtain ⟨p1, p2⟩ := p
      obtain ⟨ht, hne, _⟩ := splitLastSep_sound hs
      have ht2 : sepTail ++ e = p1 ++ (sep14 ++ p2) := by
        simpa [List.append_assoc] using ht
      have hdec : ([] : List Char) ++ sep14 ++ e = (',' :: p1) ++ sep14 ++ p2 := by
        simp only [List.nil_append, List.cons_append, List.append_assoc]
        conv_lhs => rw [sep14_cons]
        simp only [List.cons_append]
        rw [ht2]
      have hle := hR (',' :: p1) p2 hdec hne
      simp at hle
    | none =>
      have hA : sep14.isPrefixOf (',' :: (sepTail ++ e)) = true :=
        isPrefixOf_iff.mpr ⟨e, by simp [sep14_cons]⟩
      have hB : decide (14 < (',' :: (sepTail ++ e)).length) = true := by
        simp only [decide_eq_true_eq]
        have := List.length_pos.mpr he
        simp [sepTail]
        omega
      rw [splitLastSep_cons_none hs, hA, hB]
      simp only [Bool.and_self, if_true]
      have hdr : (',' :: (sepTail ++ e)).drop 14 = e := by
        rw [show (',' :: (sepTail ++ e)) = sep14 ++ e by simp [sep14_cons],
          show (14 : Nat) = sep14.length from rfl, drop_len_app]
      rw [hdr]
  | cons c m ih =>
    intro e he hR
    have hR2 : ∀ m2 e2, m ++ sep14 ++ e = m2 ++ sep14 ++ e2 → e2 ≠ [] →
        m2.length ≤ m.length := by
      intro m2 e2 hh hne
      have hcc : (c :: m) ++ sep14 ++ e = (c :: m2) ++ sep14 ++ e2 := by simp [hh]
      have := hR (c :: m2) e2 hcc hne
      simpa using this
    have hsome := ih e he hR2
    have hco : (c :: m) ++ sep14 ++ e = c :: (m ++ sep14 ++ e) := by simp
    rw [hco, splitLastSep_cons_some hsome]

/-- The rightmost-occurrence side condition, derivable from a substring test:
if the separator does not occur anywhere after position `m.length`, every
valid split point is at `m.length` or earlier. -/
theorem hR_of_occursB {m e : List Char}
    (h : occursB sep14 (sep14.drop 1 ++ e) = false) :
    ∀ m2 e2, m ++ sep14 ++ e = m2 ++ sep14 ++ e2 → e2 ≠ [] → m2.length ≤ m.length := by
  intro m2 e2 heq hne
  by_contra hlt
  push_neg at hlt
  have h1 : (m ++ sep14 ++ e).drop (m.length + 1) = sep14.drop 1 ++ e := by
    rw [List.append_assoc, drop_len_add]
    exact drop_app_of_le sep14 e 1 (by decide)
  have h2 : (m2 ++ sep14 ++ e2).drop (m.length + 1) =
      m2.drop (m.length + 1) ++ sep14 ++ e2 := by
    have hle : m.length + 1 ≤ m2.length := hlt
    rw [drop_app_of_le (m2 ++ sep14) e2 (m.length + 1) (by simp; omega),
      drop_app_of_le m2 sep14 (m.length + 1) hle]
  rw [heq, h2] at h1
  exact not_decomp_of_occursB_false h (m2.drop (m.length + 1)) e2 h1.symm

theorem matchSeverity_none {s : List Char}
    (h1 : (infoSev ++ [':', ' ']).isPrefixOf s = false)
    (h2 : (errorSev ++ [':', ' ']).isPrefixOf s = false) : matchSeverity s = none := by
  unfold matchSeverity
  rw [h1, h2]
  simp

/-! ## The anchored matcher -/

theorem recBlob_eq (f1 f2 f3 f4 sv msg extra : List Char) :
    recBlob f1 f2 f3 f4 sv msg extra =
      ridLit ++ (f1 ++ ',' :: ' ' :: (f2 ++ ',' :: ' ' :: (f3 ++ ',' :: ' ' ::
        (f4 ++ ',' :: ' ' :: (sv ++ ':' :: ' ' :: (msg ++ sep14 ++ extra)))))) := by
  unfold recBlob withFields
  simp [List.append_assoc]

theorem withFields_eq (f1 f2 f3 f4 tl : List Char) :
    withFields f1 f2 f3 f4 tl =
      ridLit ++ (f1 ++ ',' :: ' ' :: (f2 ++ ',' :: ' ' :: (f3 ++ ',' :: ' ' ::
        (f4 ++ ',' :: ' ' :: tl)))) := by
  unfold withFields
  simp [List.append_assoc]

theorem matchHere_complete (f1 f2 f3 f4 sv msg extra : List Char)
    (h1 : okField f1) (h2 : okField f2) (h3 : okField f3) (h4 : okField f4)
    (hsv : sv = infoSev ∨ sv = errorSev) (he : extra ≠ [])
    (hocc : occursB sep14 (sep14.drop 1 ++ extra) = false) :
    matchHere (recBlob f1 f2 f3 f4 sv msg extra) =
      some ⟨f1, f2, f3, f4, sv, msg, extra⟩ := by
  have hblob := recBlob_eq f1 f2 f3 f4 sv msg extra
  have hpre : ridLit.isPrefixOf (recBlob f1 f2 f3 f4 sv msg extra) = true :=
    isPrefixOf_iff.mpr ⟨_, hblob⟩
  have hdrop : (recBlob f1 f2 f3 f4 sv msg extra).drop ridLit.length =
      f1 ++ ',' :: ' ' :: (f2 ++ ',' :: ' ' :: (f3 ++ ',' :: ' ' ::
        (f4 ++ ',' :: ' ' :: (sv ++ ':' :: ' ' :: (msg ++ sep14 ++ extra))))) := by
    rw [hblob, drop_len_app]
  have hsp : splitLastSep (msg ++ sep14 ++ extra) = some (msg, extra) :=
    splitLastSep_complete msg extra he (hR_of_occursB hocc)
  rcases hsv with hsv | hsv
  · subst hsv
    simp only [matchHere, if_pos hpre, hdrop, takeField_app _ h1, takeField_app _ h2,
      takeField_app _ h3, takeField_app _ h4, matchSeverity_info, hsp]
  · subst hsv
    simp only [matchHere, if_pos hpre, hdrop, takeField_app _ h1, takeField_app _ h2,
      takeField_app _ h3, takeField_app _ h4, matchSeverity_error, hsp]

theorem matchHere_badSev (f1 f2 f3 f4 s : List Char)
    (h1 : okField f1) (h2 : okField f2) (h3 : okField f3) (h4 : okField f4)
    (hno1 : (infoSev ++ [':', ' ']).isPrefixOf s = false)
    (hno2 : (errorSev ++ [':', ' ']).isPrefixOf s = false) :
    matchHere (withFields f1 f2 f3 f4 s) = none := by
  have hblob := withFields_eq f1 f2 f3 f4 s
  have hpre : ridLit.isPrefixOf (withFields f1 f2 f3 f4 s) = true :=
    isPrefixOf_iff.mpr ⟨_, hblob⟩
  have hdrop : (withFields f1 f2 f3 f4 s).drop ridLit.length =
      f1 ++ ',' :: ' ' :: (f2 ++ ',' :: ' ' :: (f3 ++ ',' :: ' ' ::
        (f4 ++ ',' :: ' ' :: s))) := by
    rw [hblob, drop_len_app]
  simp only [matchHere, if_pos hpre, hdrop, takeField_app _ h1, takeField_app _ h2,
    takeField_app _ h3, takeField_app _ h4, matchSeverity_none hno1 hno2]

theorem matchHere_sound {s : List Char} {g : LogData} (h : matchHere s = some g) :
    s = recBlob g.request_id g.date_time g.file_name g.function_name g.message_type
        g.message g.extra_info ∧
    okField g.request_id ∧ okField g.date_time ∧ okField g.file_name ∧
    okField g.function_name ∧
    (g.message_type = infoSev ∨ g.message_type = errorSev) ∧
    g.extra_info ≠ [] ∧ (∀ m2 e2, g.extra_info = m2 ++ sep14 ++ e2 → e2 = []) := by
  unfold matchHere at h
  split at h
  · next hpre =>
    obtain ⟨t0, ht0⟩ := isPrefixOf_iff.mp hpre
    have hdr : s.drop ridLit.length = t0 := by rw [ht0, drop_len_app]
    rw [hdr] at h
    split at h
    · exact absurd h (by simp)
    · next rid s1 heq1 =>
      split at h
      · exact absurd h (by simp)
      · next dt s2 heq2 =>
        split at h
        · exact absurd h (by simp)
        · next fn s3 heq3 =>
          split at h
          · exact absurd h (by simp)
          · next fname s4 heq4 =>
            split at h
            · exact absurd h (by simp)
            · next sv s5 heq5 =>
              split at h
              · exact absurd h (by simp)
              · next msg ei heq6 =>
                simp only [Option.some.injEq] at h
                subst h
                obtain ⟨hd1, hok1⟩ := takeField_sound heq1
                obtain ⟨hd2, hok2⟩ := takeField_sound heq2
                obtain ⟨hd3, hok3⟩ := takeField_sound heq3
                obtain ⟨hd4, hok4⟩ := takeField_sound heq4
                obtain ⟨hd5, hsv⟩ := matchSeverity_sound heq5
                obtain ⟨hd6, hne, hlast⟩ := splitLastSep_sound heq6
                refine ⟨?_, hok1, hok2, hok3, hok4, hsv, hne, hlast⟩
                rw [recBlob_eq]
                rw [ht0, hd1, hd2, hd3, hd4, hd5, hd6]
  · exact absurd h (by simp)

/-! ## The left-to-right search -/

theorem matchHere_nil : matchHere [] = none := by
  unfold matchHere
  have : ridLit.isPrefixOf ([] : List Char) = false := by decide
  rw [this]
  simp

theorem search_of_here {s : List Char} {g : LogData} (h : matchHere s = some g) :
    log_pattern_search s = some g := by
  cases s with
  | nil => rw [matchHere_nil] at h; exact absurd h (by simp)
  | cons c t => simp only [log_pattern_search.eq_2, h]

theorem search_sound {s : List Char} {g : LogData} (h : log_pattern_search s = some g) :
    ∃ pre suf, s = pre ++ suf ∧ matchHere suf = some g := by
  induction s with
  | nil => simp [log_pattern_search.eq_1] at h
  | cons c t ih =>
    rw [log_pattern_search.eq_2] at h
    cases hm : matchHere (c :: t) with
    | some g0 =>
      rw [hm] at h
      simp only [Option.some.injEq] at h
      subst h
      exact ⟨[], c :: t, rfl, hm⟩
    | none =>
      rw [hm] at h
      simp only at h
      obtain ⟨pre, suf, hps, hm2⟩ := ih h
      exact ⟨c :: pre, suf, by simp [hps], hm2⟩

theorem search_none_of_no_rid {s : List Char} (h : occursB ridLit s = false) :
    log_pattern_search s = none := by
  induction s with
  | nil => rw [log_pattern_search.eq_1]
  | cons c t ih =>
    rw [occursB] at h
    simp only [Bool.or_eq_false_iff] at h
    have hm : matchHere (c :: t) = none := by
      unfold matchHere
      rw [h.1]
      simp
    rw [log_pattern_search.eq_2, hm, ih h.2]

theorem search_skip (pre rest : List Char)
    (hp : occursB ridLit (pre ++ ridLit.take 11) = false) :
    log_pattern_search (pre ++ (ridLit ++ rest)) = log_pattern_search (ridLit ++ rest) := by
  induction pre with
  | nil => rfl
  | cons c pre ih =>
    have hp2 : occursB ridLit (pre ++ ridLit.take 11) = false := by
      rw [show (c :: pre) ++ ridLit.take 11 = c :: (pre ++ ridLit.take 11) by simp,
        occursB] at hp
      simp only [Bool.or_eq_false_iff] at hp
      exact hp.2
    have hnp : ridLit.isPrefixOf ((c :: pre) ++ (ridLit ++ rest)) = false := by
      rw [Bool.eq_false_iff]
      intro hc
      obtain ⟨u, hu⟩ := isPrefixOf_iff.mp hc
      have hA : ((c :: pre) ++ ridLit.take 11) ++ (ridLit.drop 11 ++ rest) =
          (c :: pre) ++ (ridLit ++ rest) := by
        rw [List.append_assoc, ← List.append_assoc (ridLit.take 11),
          List.take_append_drop]
      have hlen : ((c :: pre) ++ ridLit.take 11).length = ridLit.length + pre.length := by
        simp [ridLit]
        omega
      have htake : (c :: pre) ++ ridLit.take 11 =
          ((c :: pre) ++ (ridLit ++ rest)).take (ridLit.length + pre.length) := by
        conv_lhs => rw [← take_len_app ((c :: pre) ++ ridLit.take 11)
          (ridLit.drop 11 ++ rest)]
        rw [hA, hlen]
      rw [hu, take_len_add] at htake
      have : occursB ridLit ((c :: pre) ++ ridLit.take 11) = true :=
        occursB_of_decomp [] (u.take pre.length) (by simpa using htake)
      rw [this] at hp
      simp at hp
    have hstep : log_pattern_search ((c :: pre) ++ (ridLit ++ rest)) =
        log_pattern_search (pre ++ (ridLit ++ rest)) := by
      rw [show (c :: pre) ++ (ridLit ++ rest) = c :: (pre ++ (ridLit ++ rest)) by simp]
      rw [log_pattern_search.eq_2]
      have hm : matchHere (c :: (pre ++ (ridLit ++ rest))) = none := by
        unfold matchHere
        rw [show c :: (pre ++ (ridLit ++ rest)) = (c :: pre) ++ (ridLit ++ rest) by simp,
          hnp]
        simp
      rw [hm]
    rw [hstep, ih hp2]

theorem search_append_isSome (pre s : List Char)
    (h : (log_pattern_search s).isSome = true) :
    (log_pattern_search (pre ++ s)).isSome = true := by
  induction pre with
  | nil => simpa using h
  | cons c pre ih =>
    rw [show (c :: pre) ++ s = c :: (pre ++ s) by simp, log_pattern_search.eq_2]
    cases hm : matchHere (c :: (pre ++ s)) with
    | some g => simp
    | none => simpa using ih

/-! ## Reader lemmas -/

theorem loadLoop_eq_filterMap {J : Type} (decode : List Char → Option J) :
    ∀ (lines : List (List Char)) (b : List Char),
      loadLoop decode b lines = (flushBlobs b lines).filterMap (parse_log_line decode) := by
  intro lines
  induction lines with
  | nil =>
    intro b
    by_cases hb : b.isEmpty
    · simp [loadLoop, flushBlobs, hb]
    · cases hp : parse_log_line decode b with
      | none => simp [loadLoop, flushBlobs, hb, hp]
      | some r => simp [loadLoop, flushBlobs, hb, hp]
  | cons l rest ih =>
    intro b
    by_cases hsep : occursB sep14 l = true
    · cases hp : parse_log_line decode (pyStep b l) with
      | none => simp [loadLoop, flushBlobs, hsep, hp, ih]
      | some r => simp [loadLoop, flushBlobs, hsep, hp, ih]
    · simp only [Bool.not_eq_true] at hsep
      simp [loadLoop, flushBlobs, hsep, ih]

theorem packBlobs_nil_buf (cs : List (List (List Char))) (tl : List (List Char)) :
    packBlobs [] cs tl = cs.map pyJoin ++ finalPart (pyJoin tl) := by
  cases cs with
  | nil => simp [packBlobs, pyJoin]
  | cons c cs2 => simp [packBlobs, pyJoin]

theorem pyFold_cons (b l : List Char) (c : List (List Char)) :
    pyFold b (l :: c) = pyFold (pyStep b l) c := rfl

theorem flushBlobs_eq_pack : ∀ (lines : List (List Char)) (b : List Char),
    flushBlobs b lines = packBlobs b (splitChunks lines).1 (splitChunks lines).2 := by
  intro lines
  induction lines with
  | nil =>
    intro b
    simp [flushBlobs, splitChunks, packBlobs, finalPart, pyFold]
  | cons l rest ih =>
    intro b
    by_cases hsep : occursB sep14 l = true
    · have hsc : splitChunks (l :: rest) =
          ([l] :: (splitChunks rest).1, (splitChunks rest).2) := by
        simp [splitChunks, hsep]
      rw [hsc]
      have hfb : flushBlobs b (l :: rest) = pyStep b l :: flushBlobs [] rest := by
        simp [flushBlobs, hsep]
      rw [hfb, ih [], packBlobs_nil_buf]
      simp [packBlobs, pyFold]
    · simp only [Bool.not_eq_true] at hsep
      have hfb : flushBlobs b (l :: rest) = flushBlobs (pyStep b l) rest := by
        simp [flushBlobs, hsep]
      rw [hfb, ih (pyStep b l)]
      cases hsc : splitChunks rest with
      | mk cs tl =>
        cases cs with
        | nil =>
          have hsc2 : splitChunks (l :: rest) = ([], l :: tl) := by
            simp [splitChunks, hsep, hsc]
          rw [hsc2]
          simp [packBlobs, pyFold_cons]
        | cons c cs2 =>
          have hsc2 : splitChunks (l :: rest) = ((l :: c) :: cs2, tl) := by
            simp [splitChunks, hsep, hsc]
          rw [hsc2]
          simp [packBlobs, pyFold_cons]

theorem splitChunks_concat : ∀ lines : List (List Char),
    (splitChunks lines).1.flatten ++ (splitChunks lines).2 = lines := by
  intro lines
  induction lines with
  | nil => simp [splitChunks]
  | cons l rest ih =>
    by_cases hsep : occursB sep14 l = true
    · simp [splitChunks, hsep, ih]
    · simp only [Bool.not_eq_true] at hsep
      cases hsc : splitChunks rest with
      | mk cs tl =>
        rw [hsc] at ih
        cases cs with
        | nil =>
          simp only [List.flatten_nil, List.nil_append] at ih
          simp [splitChunks, hsep, hsc, ih]
        | cons c cs2 =>
          simp only [splitChunks, hsep, hsc]
          simp only [List.flatten_cons, List.cons_append, List.append_assoc] at ih ⊢
          simp [ih]

theorem splitChunks_chunk_shape : ∀ (lines : List (List Char)) c,
    c ∈ (splitChunks lines).1 →
      ∃ c0 lsep, c = c0 ++ [lsep] ∧ occursB sep14 lsep = true ∧
        ∀ l ∈ c0, occursB sep14 l = false := by
  intro lines
  induction lines with
  | nil => simp [splitChunks]
  | cons l rest ih =>
    intro c hc
    by_cases hsep : occursB sep14 l = true
    · simp only [splitChunks, hsep, if_true, List.mem_cons] at hc
      rcases hc with rfl | hc
      · exact ⟨[], l, by simp, hsep, by simp⟩
      · exact ih c hc
    · simp only [Bool.not_eq_true] at hsep
      cases hsc : splitChunks rest with
      | mk cs tl =>
        cases cs with
        | nil =>
          simp only [splitChunks, hsep, hsc] at hc
          simp at hc
        | cons c1 cs2 =>
          simp only [splitChunks, hsep, hsc] at hc
          simp only [Bool.false_eq_true, if_false, List.mem_cons] at hc
          rcases hc with rfl | hc
          · obtain ⟨c0, lsep, hdec, hls, hc0⟩ := ih c1 (by rw [hsc]; simp)
            refine ⟨l :: c0, lsep, by simp [hdec], hls, ?_⟩
            intro l2 hl2
            rcases List.mem_cons.mp hl2 with rfl | hl2
            · exact hsep
            · exact hc0 l2 hl2
          · exact ih c (by rw [hsc]; simp [hc])

theorem splitChunks_tail_no_sep : ∀ (lines : List (List Char)) l,
    l ∈ (splitChunks lines).2 → occursB sep14 l = false := by
  intro lines
  induction lines with
  | nil => simp [splitChunks]
  | cons l0 rest ih =>
    intro l hl
    by_cases hsep : occursB sep14 l0 = true
    · simp only [splitChunks, hsep, if_true] at hl
      exact ih l hl
    · simp only [Bool.not_eq_true] at hsep
      cases hsc : splitChunks rest with
      | mk cs tl =>
        cases cs with
        | nil =>
          simp only [splitChunks, hsep, hsc] at hl
          simp only [Bool.false_eq_true, if_false, List.mem_cons] at hl
          rcases hl with rfl | hl
          · exact hsep
          · exact ih l (by rw [hsc]; simp [hl])
        | cons c1 cs2 =>
          simp only [splitChunks, hsep, hsc] at hl
          simp only [Bool.false_eq_true, if_false] at hl
          exact ih l (by rw [hsc]; simp [hl])

/-! ## Session-table lemmas -/

theorem round2_eq_of_bounds (q : ℚ) (z : ℤ) (hlo : (z : ℚ) ≤ q * 100 + 1/2)
    (hhi : q * 100 + 1/2 < z + 1) : round2 q = (z : ℚ) / 100 := by
  have hf : ⌊q * 100 + 1/2⌋ = z := by
    rw [Int.floor_eq_iff]
    exact ⟨hlo, by linarith⟩
  unfold round2
  rw [round_eq, hf]

theorem round2_zero : round2 0 = 0 := by
  rw [round2_eq_of_bounds 0 0 (by norm_num) (by norm_num)]
  norm_num

theorem round2_five : round2 5 = 5 := by
  rw [round2_eq_of_bounds 5 500 (by norm_num) (by norm_num)]
  norm_num

theorem round2_five_halves : round2 (5/2) = 5/2 := by
  rw [round2_eq_of_bounds (5/2) 250 (by norm_num) (by norm_num)]
  norm_num

theorem round2_ten : round2 10 = 10 := by
  rw [round2_eq_of_bounds 10 1000 (by norm_num) (by norm_num)]
  norm_num

theorem round2_fifteen_halves : round2 (15/2) = 15/2 := by
  rw [round2_eq_of_bounds (15/2) 750 (by norm_num) (by norm_num)]
  norm_num

theorem lastSame_aux (rid : List Char) : ∀ (t : List SRow) (acc : Option SRow),
    t.foldl (fun a p => if p.request_id = rid then some p else a) acc =
      match lastSame rid t with
      | some q => some q
      | none => acc := by
  intro t
  induction t with
  | nil => intro acc; simp [lastSame]
  | cons x t ih =>
    intro acc
    rw [List.foldl_cons, ih]
    have hcons : lastSame rid (x :: t) =
        match lastSame rid t with
        | some q => some q
        | none => if x.request_id = rid then some x else none := by
      conv_lhs => unfold lastSame
      rw [List.foldl_cons, ih]
    rw [hcons]
    cases hl : lastSame rid t with
    | some q => simp
    | none =>
      by_cases hx : x.request_id = rid
      · simp [hx]
      · simp [hx]

theorem lastSame_cons (rid : List Char) (x : SRow) (t : List SRow) :
    lastSame rid (x :: t) =
      match lastSame rid t with
      | some q => some q
      | none => if x.request_id = rid then some x else none := by
  conv_lhs => unfold lastSame
  rw [List.foldl_cons, lastSame_aux rid t]

theorem lookup_push (rid : List Char) : ∀ (pre : List SRow) (seen : List (List Char × ℚ)),
    lookupAssoc rid (pushSeen seen pre) =
      match lastSame rid pre with
      | some p => some p.date_time
      | none => lookupAssoc rid seen := by
  intro pre
  induction pre with
  | nil => intro seen; simp [pushSeen, lastSame]
  | cons x pre ih =>
    intro seen
    rw [show pushSeen seen (x :: pre) =
        pushSeen ((x.request_id, x.date_time) :: seen) pre from rfl, ih, lastSame_cons]
    cases hl : lastSame rid pre with
    | some q => simp
    | none =>
      by_cases hx : x.request_id = rid
      · simp [lookupAssoc, hx]
      · simp [lookupAssoc, hx]

theorem diffs_get : ∀ (l : List SRow) (i : Nat) (seen : List (List Char × ℚ)) (r : SRow),
    l[i]? = some r →
    (diffsFrom seen l)[i]? =
      some (match lookupAssoc r.request_id (pushSeen seen (l.take i)) with
            | some t => r.date_time - t
            | none => 0) := by
  intro l
  induction l with
  | nil => intro i seen r h; simp at h
  | cons x t ih =>
    intro i seen r h
    cases i with
    | zero =>
      simp only [List.getElem?_cons_zero, Option.some.injEq] at h
      subst h
      simp [diffsFrom, pushSeen]
    | succ i =>
      simp only [List.getElem?_cons_succ] at h
      have := ih i ((x.request_id, x.date_time) :: seen) r h
      simp only [diffsFrom, List.getElem?_cons_succ]
      rw [this]
      rfl

theorem time_diff_spec (l : List SRow) (i : Nat) (r : SRow) (h : l[i]? = some r) :
    (time_diff_sec l)[i]? =
      some (match lastPrevSame l i r with
            | some p => round2 (r.date_time - p.date_time)
            | none => 0) := by
  unfold time_diff_sec
  rw [List.getElem?_map, diffs_get l i [] r h, lookup_push]
  unfold lastPrevSame
  cases lastSame r.request_id (l.take i) with
  | some p => simp
  | none => simp [lookupAssoc, round2_zero]

theorem mem_insertSortedBy {le : SRow → SRow → Bool} {x y : SRow} :
    ∀ {l : List SRow}, y ∈ insertSortedBy le x l ↔ y = x ∨ y ∈ l := by
  intro l
  induction l with
  | nil => simp [insertSortedBy]
  | cons z t ih =>
    by_cases hle : le x z = true
    · simp [insertSortedBy, hle]
    · simp only [insertSortedBy, hle, Bool.false_eq_true, if_false, List.mem_cons, ih]
      tauto

theorem mem_sortRowsBy {le : SRow → SRow → Bool} {y : SRow} :
    ∀ {l : List SRow}, y ∈ sortRowsBy le l ↔ y ∈ l := by
  intro l
  induction l with
  | nil => simp [sortRowsBy]
  | cons z t ih =>
    simp only [sortRowsBy, List.foldr_cons, List.mem_cons]
    rw [show t.foldr (insertSortedBy le) [] = sortRowsBy le t from rfl]
    rw [mem_insertSortedBy, ih]

/-! ## Download lemmas -/

theorem pathJoin_inj {d f1 f2 : List Char} (h : pathJoin d f1 = pathJoin d f2) :
    f1 = f2 := by
  unfold pathJoin at h
  have := List.append_cancel_left h
  simpa using this

theorem syncBatch_unfold (resps : List Char → HttpResponse) (d f : List Char)
    (rest : List (List Char)) (s : Storage) :
    (syncBatch resps d (f :: rest) s).2 =
      (syncBatch resps d rest (download_log_file (resps f) d f s).2).2 := rfl

theorem syncBatch_count (resps : List Char → HttpResponse) (d : List Char) :
    ∀ (files : List (List Char)) (s : Storage),
      (syncBatch resps d files s).1 =
        (files.filter (fun f => decide ((resps f).status = 200))).length := by
  intro files
  induction files with
  | nil => intro s; simp [syncBatch]
  | cons f rest ih =>
    intro s
    by_cases h200 : (resps f).status = 200
    · simp [syncBatch, download_log_file, h200, ih, List.filter_cons]
      omega
    · simp [syncBatch, download_log_file, h200, ih, List.filter_cons]

theorem lookupFile_syncBatch_ne (resps : List Char → HttpResponse) (d : List Char) :
    ∀ (files : List (List Char)) (s : Storage) (p : List Char),
      (∀ f ∈ files, pathJoin d f ≠ p) →
      lookupFile p (syncBatch resps d files s).2.files = lookupFile p s.files := by
  intro files
  induction files with
  | nil => intro s p _; simp [syncBatch]
  | cons f rest ih =>
    intro s p hne
    rw [syncBatch_unfold, ih _ p fun f2 hf2 => hne f2 (by simp [hf2])]
    by_cases h200 : (resps f).status = 200
    · simp only [download_log_file, if_pos h200]
      show (if pathJoin d f = p then some (resps f).content else lookupFile p s.files) =
        lookupFile p s.files
      rw [if_neg (hne f (by simp))]
    · simp [download_log_file, h200]

theorem syncBatch_persist (resps : List Char → HttpResponse) (d : List Char) :
    ∀ (files : List (List Char)) (s : Storage) (f : List Char),
      f ∈ files → (resps f).status = 200 →
      lookupFile (pathJoin d f) (syncBatch resps d files s).2.files =
        some (resps f).content := by
  intro files
  induction files with
  | nil => intro s f hf; simp at hf
  | cons x rest ih =>
    intro s f hf h200
    by_cases hfr : f ∈ rest
    · rw [syncBatch_unfold]
      exact ih _ f hfr h200
    · have hfx : f = x := by
        rcases List.mem_cons.mp hf with rfl | hmem
        · rfl
        · exact absurd hmem hfr
      subst hfx
      rw [syncBatch_unfold]
      rw [lookupFile_syncBatch_ne resps d rest _ (pathJoin d f)
        fun f2 hf2 hpe => hfr (pathJoin_inj hpe ▸ hf2)]
      simp only [download_log_file, if_pos h200]
      show (if pathJoin d f = pathJoin d f then some (resps f).content else
        lookupFile (pathJoin d f) s.files) = some (resps f).content
      rw [if_pos rfl]

/-! ## The claims -/

/-- C1: for every collection of parsed records, after sorting ascending by
timestamp and grouping by request id, each record's `time_diff_sec` equals
the gap in seconds to the previous record of the same request id, rounded to
2 decimal places, and the first record of each group gets 0. -/
theorem C1_session_deltas (rs : List SRow) (i : Nat) (r : SRow)
    (h : (sortByTime rs)[i]? = some r) :
    (time_diff_sec (sortByTime rs))[i]? =
      some (match lastPrevSame (sortByTime rs) i r with
            | some p => round2 (r.date_time - p.date_time)
            | none => 0) :=
  time_diff_spec (sortByTime rs) i r h

/-- C1 witness: for one request id with timestamps [T0, T0+5s, T0+7.5s]
(T0 = 0) the deltas are [0, 5.00, 2.50] and their rounded sum is 7.50; the
third delta is obtained from the claim theorem. -/
theorem C1_session_deltas_witness :
    (sortByTime exRows)[2]? = some ⟨"req1".data, 15/2, []⟩ ∧
    (time_diff_sec (sortByTime exRows))[2]? =
      some (match lastPrevSame (sortByTime exRows) 2 ⟨"req1".data, 15/2, []⟩ with
            | some p => round2 ((⟨"req1".data, 15/2, []⟩ : SRow).date_time - p.date_time)
            | none => 0) ∧
    time_diff_sec (sortByTime exRows) = [0, 5, 5/2] ∧
    total_time_sec (sortByTime exRows) = 15/2 :=
  ⟨by norm_num [sortByTime, sortRowsBy, insertSortedBy, exRows],
   C1_session_deltas exRows 2 ⟨"req1".data, 15/2, []⟩
     (by norm_num [sortByTime, sortRowsBy, insertSortedBy, exRows]),
   by norm_num [time_diff_sec, sortByTime, sortRowsBy, insertSortedBy, diffsFrom,
     lookupAssoc, exRows, round2_zero, round2_five, round2_five_halves],
   by norm_num [total_time_sec, time_diff_sec, sortByTime, sortRowsBy, insertSortedBy,
     diffsFrom, lookupAssoc, exRows, round2_zero, round2_five, round2_five_halves,
     round2_fifteen_halves]⟩

/-- C2 counterexample: a blob with two occurrences of ", extra_info: " whose
last occurrence is at the very end of the blob.  The parser matches the blob
but splits at the FIRST occurrence (message "m"), not the last one (which
would give message "m, extra_info: x"), refuting the claim as stated. -/
theorem C2_last_occurrence_cex :
    log_pattern_search exBlobTrail =
      some ⟨"a".data, "b".data, "c".data, "d".data, "INFO".data, "m".data,
        "x, extra_info: ".data⟩ ∧
    exBlobTrail = "request_id: a, b, c, d, INFO: ".data ++ "m".data ++ sep14 ++
      ("x".data ++ sep14) ∧
    ("m".data : List Char) ≠ "m, extra_info: x".data := by
  refine ⟨by decide, by decide, by decide⟩

/-- C2 (amended): whenever the parser matches a blob, it splits the message
from the payload at the last occurrence of ", extra_info: " that is followed
by at least one character: the matched payload is nonempty, no further
separator occurrence inside the payload has anything after it, and the blob
decomposes as prefix garbage plus the matched record. -/
theorem C2_split_at_last_feasible (blob : List Char) (g : LogData)
    (h : log_pattern_search blob = some g) :
    g.extra_info ≠ [] ∧
    (∀ m2 e2, g.extra_info = m2 ++ sep14 ++ e2 → e2 = []) ∧
    ∃ pre, blob = pre ++ recBlob g.request_id g.date_time g.file_name
      g.function_name g.message_type g.message g.extra_info := by
  obtain ⟨pre, suf, hps, hm⟩ := search_sound h
  obtain ⟨hdec, _, _, _, _, _, hne, hlast⟩ := matchHere_sound hm
  exact ⟨hne, hlast, pre, by rw [hps, hdec]⟩

/-- C2 witness: on a blob with an embedded earlier separator and a nonempty
final payload, the parser keeps the embedded separator inside the message. -/
theorem C2_split_at_last_feasible_witness :
    log_pattern_search exBlobA =
      some ⟨"a".data, "b".data, "c".data, "d".data, "INFO".data,
        "m, extra_info: no".data, "yes".data⟩ ∧
    (("yes".data : List Char) ≠ [] ∧
     (∀ m2 e2, ("yes".data : List Char) = m2 ++ sep14 ++ e2 → e2 = []) ∧
     ∃ pre, exBlobA = pre ++ recBlob ("a".data) ("b".data) ("c".data) ("d".data)
       ("INFO".data) ("m, extra_info: no".data) ("yes".data)) :=
  ⟨by decide, C2_split_at_last_feasible exBlobA
    ⟨"a".data, "b".data, "c".data, "d".data, "INFO".data,
      "m, extra_info: no".data, "yes".data⟩ (by decide)⟩

/-- C3 counterexample: two records of one request id at t = 0 and t = 10, and
a date filter [5, 20] that keeps only the second.  In the filtered table that
record's delta is 0, while in the unfiltered table the same record's delta is
10: a surviving record does not keep the delta it had in the unfiltered
table, refuting the claim as stated. -/
theorem C3_filter_delta_cex :
    (sortByTime (dateFilter 5 20 (sortByTimeDesc exPair)))[0]? =
      some ⟨"req1".data, 10, []⟩ ∧
    time_diff_sec (sortByTime (dateFilter 5 20 (sortByTimeDesc exPair))) = [0] ∧
    (sortByTime (sortByTimeDesc exPair))[1]? = some ⟨"req1".data, 10, []⟩ ∧
    time_diff_sec (sortByTime (sortByTimeDesc exPair)) = [0, 10] ∧
    (0 : ℚ) ≠ 10 := by
  refine ⟨?_, ?_, ?_, ?_, by norm_num⟩
  · norm_num [sortByTime, sortByTimeDesc, sortRowsBy, insertSortedBy, dateFilter, exPair]
  · norm_num [time_diff_sec, sortByTime, sortByTimeDesc, sortRowsBy, insertSortedBy,
      diffsFrom, lookupAssoc, dateFilter, exPair, round2_zero]
  · norm_num [sortByTime, sortByTimeDesc, sortRowsBy, insertSortedBy, exPair]
  · norm_num [time_diff_sec, sortByTime, sortByTimeDesc, sortRowsBy, insertSortedBy,
      diffsFrom, lookupAssoc, exPair, round2_zero, round2_ten]

/-- C3 (amended): filtering produces an order-preserving subset of the
(descending-sorted) table with every surviving record equal to a record of
the original collection (no mutation), and `time_diff_sec` — computed after
filtering — gives each surviving record the gap to the immediately preceding
record with the same request id in the FILTERED table, 0 when none exists. -/
theorem C3_filter_no_mutation (lo hi : ℚ) (ids : List (List Char)) (tbl : List SRow) :
    List.Sublist (ridFilter ids (dateFilter lo hi (sortByTimeDesc tbl)))
      (sortByTimeDesc tbl) ∧
    (∀ r ∈ ridFilter ids (dateFilter lo hi (sortByTimeDesc tbl)), r ∈ tbl) ∧
    (∀ i r,
      (sortByTime (ridFilter ids (dateFilter lo hi (sortByTimeDesc tbl))))[i]? = some r →
      (time_diff_sec (sortByTime (ridFilter ids (dateFilter lo hi
          (sortByTimeDesc tbl)))))[i]? =
        some (match lastPrevSame (sortByTime (ridFilter ids (dateFilter lo hi
              (sortByTimeDesc tbl)))) i r with
              | some p => round2 (r.date_time - p.date_time)
              | none => 0)) := by
  refine ⟨?_, ?_, ?_⟩
  · exact (List.filter_sublist _).trans (List.filter_sublist _)
  · intro r hr
    have h1 : r ∈ sortByTimeDesc tbl :=
      ((List.filter_sublist _).trans (List.filter_sublist _)).mem hr
    exact mem_sortRowsBy.mp h1
  · intro i r h
    exact time_diff_spec _ i r h

/-- C3 witness: the filtered table of the two-record example is a subset of
the unfiltered one with its surviving record unchanged, and that record's
delta in the filtered table is given by the claim theorem. -/
theorem C3_filter_no_mutation_witness :
    List.Sublist (ridFilter ["req1".data] (dateFilter 5 20 (sortByTimeDesc exPair)))
      (sortByTimeDesc exPair) ∧
    (∀ r ∈ ridFilter ["req1".data] (dateFilter 5 20 (sortByTimeDesc exPair)),
      r ∈ exPair) ∧
    (time_diff_sec (sortByTime (ridFilter ["req1".data] (dateFilter 5 20
        (sortByTimeDesc exPair)))))[0]? =
      some (match lastPrevSame (sortByTime (ridFilter ["req1".data] (dateFilter 5 20
            (sortByTimeDesc exPair)))) 0 ⟨"req1".data, 10, []⟩ with
            | some p => round2 ((⟨"req1".data, 10, []⟩ : SRow).date_time - p.date_time)
            | none => 0) :=
  ⟨(C3_filter_no_mutation 5 20 ["req1".data] exPair).1,
   (C3_filter_no_mutation 5 20 ["req1".data] exPair).2.1,
   (C3_filter_no_mutation 5 20 ["req1".data] exPair).2.2 0 ⟨"req1".data, 10, []⟩
     (by norm_num [sortByTime, sortByTimeDesc, sortRowsBy, insertSortedBy,
       dateFilter, ridFilter, exPair])⟩

/-- C4: the Record Parser returns no record (an Option none, never an
exception) whenever the blob fails the grammar: (a) whenever the blob
contains no ", extra_info: " substring, and (b) whenever the severity token
after the four comma-delimited fields is anything but exactly "INFO" or
"ERROR" — the whole record is dropped, never partially parsed. -/
theorem C4_reject_malformed :
    (∀ (J : Type) (decode : List Char → Option J) (blob : List Char),
      occursB sep14 blob = false → parse_log_line decode blob = none) ∧
    (∀ (J : Type) (decode : List Char → Option J) (f1 f2 f3 f4 s : List Char),
      okField f1 → okField f2 → okField f3 → okField f4 →
      (infoSev ++ [':', ' ']).isPrefixOf s = false →
      (errorSev ++ [':', ' ']).isPrefixOf s = false →
      occursB ridLit ((withFields f1 f2 f3 f4 s).drop 1) = false →
      parse_log_line decode (withFields f1 f2 f3 f4 s) = none) := by
  constructor
  · intro J decode blob hocc
    cases hs : log_pattern_search blob with
    | none => simp [parse_log_line, hs]
    | some g =>
      exfalso
      obtain ⟨pre, suf, hps, hm⟩ := search_sound hs
      obtain ⟨hdec, _⟩ := matchHere_sound hm
      have hx : blob = (pre ++ (ridLit ++ g.request_id ++ ',' :: ' ' :: g.date_time ++
          ',' :: ' ' :: g.file_name ++ ',' :: ' ' :: g.function_name ++ ',' :: ' ' ::
          g.message_type ++ ':' :: ' ' :: g.message)) ++ sep14 ++ g.extra_info := by
        rw [hps, hdec]
        unfold recBlob withFields
        simp [List.append_assoc]
      exact absurd (occursB_of_decomp _ _ hx) (by simp [hocc])
  · intro J decode f1 f2 f3 f4 s h1 h2 h3 h4 hno1 hno2 hrid
    have hm : matchHere (withFields f1 f2 f3 f4 s) = none :=
      matchHere_badSev f1 f2 f3 f4 s h1 h2 h3 h4 hno1 hno2
    obtain ⟨t, htt⟩ : ∃ t, withFields f1 f2 f3 f4 s = 'r' :: t := by
      rw [withFields_eq]
      refine ⟨ridLit.drop 1 ++ (f1 ++ ',' :: ' ' :: (f2 ++ ',' :: ' ' ::
        (f3 ++ ',' :: ' ' :: (f4 ++ ',' :: ' ' :: s)))), ?_⟩
      rw [show ridLit = 'r' :: ridLit.drop 1 from rfl]
      simp
    have hdt : (withFields f1 f2 f3 f4 s).drop 1 = t := by rw [htt]; rfl
    have hsearch : log_pattern_search (withFields f1 f2 f3 f4 s) = none := by
      rw [htt, log_pattern_search.eq_2, ← htt, hm]
      rw [hdt] at hrid
      exact search_none_of_no_rid hrid
    simp [parse_log_line, hsearch]

/-- C4 witness: a blob with no separator substring, and a blob whose severity
token is "WARN", are both silently rejected. -/
theorem C4_reject_malformed_witness :
    parse_log_line decodeNone ("request_id: a, b, c, d, INFO: no separator".data) = none ∧
    parse_log_line decodeNone
      (withFields ("a".data) ("b".data) ("c".data) ("d".data)
        ("WARN: m, extra_info: x".data)) = none :=
  ⟨C4_reject_malformed.1 Unit decodeNone _ (by decide),
   C4_reject_malformed.2 Unit decodeNone ("a".data) ("b".data) ("c".data) ("d".data)
     ("WARN: m, extra_info: x".data) (by decide) (by decide) (by decide) (by decide)
     (by decide) (by decide) (by decide)⟩

/-- C5: for every grammar-matching blob, the parser decodes the payload: on
decode success the record stores the decoded structure, on decode failure it
stores the raw payload string unchanged; both branches return a record (the
decode step never escapes as an error). -/
theorem C5_decode_fallback (J : Type) (decode : List Char → Option J)
    (blob : List Char) (g : LogData) (hs : log_pattern_search blob = some g) :
    (∀ v, decode g.extra_info = some v →
      parse_log_line decode blob = some ⟨g.request_id, g.date_time, g.file_name,
        g.function_name, g.message_type, g.message, ExtraInfo.structured v⟩) ∧
    (decode g.extra_info = none →
      parse_log_line decode blob = some ⟨g.request_id, g.date_time, g.file_name,
        g.function_name, g.message_type, g.message, ExtraInfo.raw g.extra_info⟩) := by
  constructor
  · intro v hv
    simp [parse_log_line, hs, hv]
  · intro hv
    simp [parse_log_line, hs, hv]

/-- C5 witness: on a conforming blob, a succeeding decoder stores the decoded
value and a failing decoder stores the raw payload string unchanged. -/
theorem C5_decode_fallback_witness :
    parse_log_line decodeId exBlobGood =
      some ⟨"a".data, "b".data, "c".data, "d".data, "INFO".data, "m".data,
        ExtraInfo.structured ("x".data)⟩ ∧
    parse_log_line decodeNone exBlobGood =
      some ⟨"a".data, "b".data, "c".data, "d".data, "INFO".data, "m".data,
        ExtraInfo.raw ("x".data)⟩ :=
  ⟨(C5_decode_fallback (List Char) decodeId exBlobGood
      ⟨"a".data, "b".data, "c".data, "d".data, "INFO".data, "m".data, "x".data⟩
      (by decide)).1 ("x".data) rfl,
   (C5_decode_fallback Unit decodeNone exBlobGood
      ⟨"a".data, "b".data, "c".data, "d".data, "INFO".data, "m".data, "x".data⟩
      (by decide)).2 rfl⟩

/-! ## Multi-line record helpers -/

theorem nlCat_append (a b : List (List Char)) : nlCat (a ++ b) = nlCat a ++ nlCat b := by
  induction a with
  | nil => simp [nlCat]
  | cons l a ih => simp [nlCat, ih]

theorem pyStep_ne_nil {b : List Char} (l : List Char) (hb : b ≠ []) : pyStep b l ≠ [] := by
  unfold pyStep
  rw [if_neg (by simpa [List.isEmpty_iff] using hb)]
  simp

theorem pyStep_of_ne {b : List Char} (l : List Char) (hb : b ≠ []) :
    pyStep b l = b ++ '\n' :: l := by
  unfold pyStep
  rw [if_neg (by simpa [List.isEmpty_iff] using hb)]

theorem pyFold_of_ne : ∀ (ls : List (List Char)) (b : List Char), b ≠ [] →
    pyFold b ls = b ++ nlCat ls := by
  intro ls
  induction ls with
  | nil => intro b _; simp [pyFold, nlCat]
  | cons l ls ih =>
    intro b hb
    rw [pyFold_cons, ih (pyStep b l) (pyStep_ne_nil l hb), pyStep_of_ne l hb]
    simp [nlCat]

theorem flushBlobs_single : ∀ (mid : List (List Char)) (b lsep : List Char),
    b ≠ [] → (∀ l ∈ mid, occursB sep14 l = false) → occursB sep14 lsep = true →
    flushBlobs b (mid ++ [lsep]) = [pyFold b (mid ++ [lsep])] := by
  intro mid
  induction mid with
  | nil =>
    intro b lsep _ _ hsep
    simp [flushBlobs, hsep, pyFold]
  | cons l mid ih =>
    intro b lsep hb hmid hsep
    have hl : occursB sep14 l = false := hmid l (by simp)
    rw [show (l :: mid) ++ [lsep] = l :: (mid ++ [lsep]) by simp]
    rw [show flushBlobs b (l :: (mid ++ [lsep])) = flushBlobs (pyStep b l) (mid ++ [lsep])
      by simp [flushBlobs, hl]]
    rw [ih (pyStep b l) lsep (pyStep_ne_nil l hb) (fun l2 hl2 => hmid l2 (by simp [hl2]))
      hsep]
    rw [pyFold_cons]

theorem withFields_app (f1 f2 f3 f4 t x : List Char) :
    withFields f1 f2 f3 f4 t ++ x = withFields f1 f2 f3 f4 (t ++ x) := by
  unfold withFields
  simp [List.append_assoc]

theorem withFields_ne_nil (f1 f2 f3 f4 t : List Char) :
    withFields f1 f2 f3 f4 t ≠ [] := by
  rw [withFields_eq]
  simp [ridLit]

/-! ## Claims C6 and C7 -/

/-- C6 counterexample: an empty physical line followed by a delimiter line.
The code's buffer update (`if buffer:` in app.py) replaces an empty buffer by
the line instead of joining with a newline, so the blob handed to the parser
is the delimiter line itself, not the newline-join of the two lines — the
claim's "newline-joined buffer" is refuted as stated. -/
theorem C6_newline_join_cex :
    flushBlobs [] exLines = [exSepLine] ∧
    joinNL exLines = '\n' :: exSepLine ∧
    ([exSepLine] : List (List Char)) ≠ [joinNL exLines] := by
  refine ⟨by decide, by decide, by decide⟩

/-- C6 (amended): the reader accumulates lines into a buffer that is flushed
to the parser and reset exactly at lines containing ", extra_info: ", with a
best-effort flush of a nonempty final buffer; the buffer join adds a newline
before each appended line EXCEPT when the buffer is empty, in which case the
line replaces the buffer (so leading empty lines contribute no newline).
Formally: the file loop equals parsing the flushed blob sequence; the blobs
are the chunk-wise buffer joins, each chunk ending at a delimiter line (plus
the conditionally flushed delimiter-free tail); the chunks concatenate back
to the file's lines; and only a chunk's last line carries the delimiter. -/
theorem C6_reader_flush (J : Type) (decode : List Char → Option J)
    (lines : List (List Char)) :
    load_logs_file decode lines =
      (flushBlobs [] lines).filterMap (parse_log_line decode) ∧
    flushBlobs [] lines =
      (splitChunks lines).1.map pyJoin ++ finalPart (pyJoin (splitChunks lines).2) ∧
    (splitChunks lines).1.flatten ++ (splitChunks lines).2 = lines ∧
    (∀ c ∈ (splitChunks lines).1, ∃ c0 lsep, c = c0 ++ [lsep] ∧
      occursB sep14 lsep = true ∧ ∀ l ∈ c0, occursB sep14 l = false) ∧
    (∀ l ∈ (splitChunks lines).2, occursB sep14 l = false) := by
  refine ⟨loadLoop_eq_filterMap decode lines [], ?_, splitChunks_concat lines,
    splitChunks_chunk_shape lines, splitChunks_tail_no_sep lines⟩
  rw [flushBlobs_eq_pack lines [], packBlobs_nil_buf]

/-- C6 witness: on the two-line example the loop parses exactly the blobs of
the chunk decomposition, whose single chunk consists of both lines with only
the final one carrying the delimiter. -/
theorem C6_reader_flush_witness :
    load_logs_file decodeNone exLines =
      (flushBlobs [] exLines).filterMap (parse_log_line decodeNone) ∧
    flushBlobs [] exLines =
      (splitChunks exLines).1.map pyJoin ++ finalPart (pyJoin (splitChunks exLines).2) ∧
    (splitChunks exLines).1.flatten ++ (splitChunks exLines).2 = exLines ∧
    (∃ c0 lsep, ([[], exSepLine] : List (List Char)) = c0 ++ [lsep] ∧
      occursB sep14 lsep = true ∧ ∀ l ∈ c0, occursB sep14 l = false) :=
  ⟨(C6_reader_flush Unit decodeNone exLines).1,
   (C6_reader_flush Unit decodeNone exLines).2.1,
   (C6_reader_flush Unit decodeNone exLines).2.2.1,
   (C6_reader_flush Unit decodeNone exLines).2.2.2.1 [[], exSepLine] (by decide)⟩

/-- C7: a record whose message spans several physical lines, with the
separator appearing only on the final line, is reassembled by the reader and
parsed with the message preserved verbatim, embedded newlines included. -/
theorem C7_multiline_message (J : Type) (decode : List Char → Option J)
    (f1 f2 f3 f4 m0 mlast extra : List Char) (mid : List (List Char))
    (h1 : okField f1) (h2 : okField f2) (h3 : okField f3) (h4 : okField f4)
    (he : extra ≠ []) (hocc : occursB sep14 (sep14.drop 1 ++ extra) = false)
    (hhead : occursB sep14 (withFields f1 f2 f3 f4 (infoSev ++ ':' :: ' ' :: m0)) = false)
    (hmid : ∀ l ∈ mid, occursB sep14 l = false) :
    load_logs_file decode
      (withFields f1 f2 f3 f4 (infoSev ++ ':' :: ' ' :: m0) ::
        (mid ++ [mlast ++ sep14 ++ extra])) =
      [⟨f1, f2, f3, f4, infoSev, joinNL (m0 :: (mid ++ [mlast])),
        match decode extra with
        | some v => ExtraInfo.structured v
        | none => ExtraInfo.raw extra⟩] := by
  have hlsep : occursB sep14 (mlast ++ sep14 ++ extra) = true :=
    occursB_of_decomp mlast extra rfl
  have hhne : withFields f1 f2 f3 f4 (infoSev ++ ':' :: ' ' :: m0) ≠ [] :=
    withFields_ne_nil f1 f2 f3 f4 _
  have hfirst : flushBlobs []
      (withFields f1 f2 f3 f4 (infoSev ++ ':' :: ' ' :: m0) ::
        (mid ++ [mlast ++ sep14 ++ extra])) =
      flushBlobs (withFields f1 f2 f3 f4 (infoSev ++ ':' :: ' ' :: m0))
        (mid ++ [mlast ++ sep14 ++ extra]) := by
    simp [flushBlobs, hhead, pyStep]
  have hblob : pyFold (withFields f1 f2 f3 f4 (infoSev ++ ':' :: ' ' :: m0))
      (mid ++ [mlast ++ sep14 ++ extra]) =
      recBlob f1 f2 f3 f4 infoSev (joinNL (m0 :: (mid ++ [mlast]))) extra := by
    rw [pyFold_of_ne _ _ hhne, withFields_app]
    unfold recBlob
    have hmsg : joinNL (m0 :: (mid ++ [mlast])) = m0 ++ (nlCat mid ++ '\n' :: mlast) := by
      rw [show joinNL (m0 :: (mid ++ [mlast])) = m0 ++ nlCat (mid ++ [mlast]) from rfl,
        nlCat_append]
      simp [nlCat]
    rw [hmsg, nlCat_append]
    apply congrArg (withFields f1 f2 f3 f4)
    simp [nlCat, List.append_assoc]
  have hparse : parse_log_line decode
      (recBlob f1 f2 f3 f4 infoSev (joinNL (m0 :: (mid ++ [mlast]))) extra) =
      some ⟨f1, f2, f3, f4, infoSev, joinNL (m0 :: (mid ++ [mlast])),
        match decode extra with
        | some v => ExtraInfo.structured v
        | none => ExtraInfo.raw extra⟩ := by
    have hm := matchHere_complete f1 f2 f3 f4 infoSev (joinNL (m0 :: (mid ++ [mlast])))
      extra h1 h2 h3 h4 (Or.inl rfl) he hocc
    have hsearch := search_of_here hm
    cases hd : decode extra with
    | some v => simp [parse_log_line, hsearch, hd]
    | none => simp [parse_log_line, hsearch, hd]
  rw [load_logs_file, loadLoop_eq_filterMap, hfirst,
    flushBlobs_single mid _ _ hhne hmid hlsep, hblob]
  simp [List.filterMap, hparse]

/-- C7 witness: a three-line record ("hello" / "middle" / "bye") parses with
message "hello\nmiddle\nbye", newlines preserved. -/
theorem C7_multiline_message_witness :
    load_logs_file decodeNone
      (withFields ("a".data) ("b".data) ("c".data) ("d".data)
          (infoSev ++ ':' :: ' ' :: "hello".data) ::
        (["middle".data] ++ ["bye".data ++ sep14 ++ "x".data])) =
      [⟨"a".data, "b".data, "c".data, "d".data, infoSev,
        joinNL ("hello".data :: (["middle".data] ++ ["bye".data])),
        match decodeNone ("x".data) with
        | some v => ExtraInfo.structured v
        | none => ExtraInfo.raw ("x".data)⟩] ∧
    joinNL ("hello".data :: (["middle".data] ++ ["bye".data])) = "hello\nmiddle\nbye".data :=
  ⟨C7_multiline_message Unit decodeNone ("a".data) ("b".data) ("c".data) ("d".data)
      ("hello".data) ("bye".data) ("x".data) ["middle".data]
      (by decide) (by decide) (by decide) (by decide) (by decide) (by decide)
      (by decide) (by decide),
   by decide⟩

/-! ## Claims C8, C9 and C10 -/

/-- C8: a single-file download returns success and persists the response body
under the source's folder (creating the folder) exactly when the HTTP status
is 200, and otherwise returns failure while writing nothing; the sync loop
processes every listed file, so one failed file neither stops the count of
later successes nor prevents their persistence. -/
theorem C8_download_persist :
    (∀ (resp : HttpResponse) (d f : List Char) (s : Storage),
      (download_log_file resp d f s).1 = true ↔ resp.status = 200) ∧
    (∀ (resp : HttpResponse) (d f : List Char) (s : Storage),
      resp.status ≠ 200 → (download_log_file resp d f s).2 = s) ∧
    (∀ (resp : HttpResponse) (d f : List Char) (s : Storage), resp.status = 200 →
      lookupFile (pathJoin d f) (download_log_file resp d f s).2.files =
        some resp.content ∧
      d ∈ (download_log_file resp d f s).2.dirs) ∧
    (∀ (resps : List Char → HttpResponse) (d : List Char) (files : List (List Char))
      (s : Storage),
      (syncBatch resps d files s).1 =
        (files.filter (fun f => decide ((resps f).status = 200))).length) ∧
    (∀ (resps : List Char → HttpResponse) (d : List Char) (files : List (List Char))
      (s : Storage) (f : List Char), f ∈ files → (resps f).status = 200 →
      lookupFile (pathJoin d f) (syncBatch resps d files s).2.files =
        some (resps f).content) := by
  refine ⟨?_, ?_, ?_, fun resps d files s => syncBatch_count resps d files s,
    fun resps d files s f hf h200 => syncBatch_persist resps d files s f hf h200⟩
  · intro resp d f s
    constructor
    · intro h
      by_contra hne
      rw [show (download_log_file resp d f s).1 = false by
        simp [download_log_file, hne]] at h
      exact absurd h (by simp)
    · intro h
      simp [download_log_file, h]
  · intro resp d f s h
    simp [download_log_file, h]
  · intro resp d f s h
    constructor
    · simp only [download_log_file, if_pos h]
      show (if pathJoin d f = pathJoin d f then some resp.content else
        lookupFile (pathJoin d f) s.files) = some resp.content
      rw [if_pos rfl]
    · simp [download_log_file, h]

/-- C8 witness: in a two-file batch where `a.log` fails with 404 and `b.log`
succeeds with 200, the failure returns False and writes nothing, the batch
still counts one success, and `b.log`'s body is persisted. -/
theorem C8_download_persist_witness :
    ((download_log_file (exResps ("a.log".data)) ("all_logs".data) ("a.log".data)
        ⟨[], []⟩).1 = true ↔ (exResps ("a.log".data)).status = 200) ∧
    (download_log_file (exResps ("a.log".data)) ("all_logs".data) ("a.log".data)
        ⟨[], []⟩).2 = ⟨[], []⟩ ∧
    (syncBatch exResps ("all_logs".data) ["a.log".data, "b.log".data] ⟨[], []⟩).1 =
      (["a.log".data, "b.log".data].filter
        (fun f => decide ((exResps f).status = 200))).length ∧
    lookupFile (pathJoin ("all_logs".data) ("b.log".data))
      (syncBatch exResps ("all_logs".data) ["a.log".data, "b.log".data] ⟨[], []⟩).2.files =
      some (exResps ("b.log".data)).content :=
  ⟨C8_download_persist.1 (exResps ("a.log".data)) ("all_logs".data) ("a.log".data)
      ⟨[], []⟩,
   C8_download_persist.2.1 (exResps ("a.log".data)) ("all_logs".data) ("a.log".data)
      ⟨[], []⟩ (by decide),
   C8_download_persist.2.2.2.1 exResps ("all_logs".data) ["a.log".data, "b.log".data]
      ⟨[], []⟩,
   C8_download_persist.2.2.2.2 exResps ("all_logs".data) ["a.log".data, "b.log".data]
      ⟨[], []⟩ ("b.log".data) (by decide) (by decide)⟩

/-- C9 counterexample: a prefix that itself contains "request_id: " (here a
whole severity-bearing garbage line).  The search matches from the PREFIX's
marker, producing a record whose fields come from the prefix, not from the
conforming record that follows — refuting "parsed from the conforming
portion" for arbitrary prefixes. -/
theorem C9_prefix_cex :
    log_pattern_search (exBadPre ++ exBlobGood) =
      some ⟨"p".data, "q".data, "r".data, "s".data, "INFO".data,
        "zzz\nrequest_id: a, b, c, d, INFO: m".data, "x".data⟩ ∧
    log_pattern_search exBlobGood =
      some ⟨"a".data, "b".data, "c".data, "d".data, "INFO".data, "m".data, "x".data⟩ ∧
    ("p".data : List Char) ≠ "a".data := by
  refine ⟨by decide, by decide, by decide⟩

/-- C9 (amended): the match is an unanchored substring search — a parseable
blob still yields a record after ANY prefix text is prepended; and when the
prefix contains no occurrence of "request_id: ", prepending it does not
change the parse at all, so the record is the one parsed from the conforming
portion with the prefix silently discarded. -/
theorem C9_unanchored :
    (∀ (J : Type) (decode : List Char → Option J) (pre blob : List Char),
      (parse_log_line decode blob).isSome = true →
      (parse_log_line decode (pre ++ blob)).isSome = true) ∧
    (∀ (J : Type) (decode : List Char → Option J) (pre rest : List Char),
      occursB ridLit (pre ++ ridLit.take 11) = false →
      parse_log_line decode (pre ++ (ridLit ++ rest)) =
        parse_log_line decode (ridLit ++ rest)) := by
  constructor
  · intro J decode pre blob h
    cases hs : log_pattern_search blob with
    | none => rw [show parse_log_line decode blob = none by
        simp [parse_log_line, hs]] at h; exact absurd h (by simp)
    | some g =>
      have h2 : (log_pattern_search (pre ++ blob)).isSome = true :=
        search_append_isSome pre blob (by simp [hs])
      cases hs2 : log_pattern_search (pre ++ blob) with
      | none => rw [hs2] at h2; exact absurd h2 (by simp)
      | some g2 => simp [parse_log_line, hs2]
  · intro J decode pre rest hp
    have hse := search_skip pre rest hp
    unfold parse_log_line
    rw [hse]

/-- C9 witness: prepending a marker-free garbage line leaves the parse of the
conforming record unchanged, and prepending even a marker-bearing prefix
still yields some record. -/
theorem C9_unanchored_witness :
    (parse_log_line decodeNone (exBadPre ++ exBlobGood)).isSome = true ∧
    parse_log_line decodeNone
      ("garbage line\n".data ++ (ridLit ++ "a, b, c, d, INFO: m, extra_info: x".data)) =
      parse_log_line decodeNone (ridLit ++ "a, b, c, d, INFO: m, extra_info: x".data) :=
  ⟨C9_unanchored.1 Unit decodeNone exBadPre exBlobGood (by decide),
   C9_unanchored.2 Unit decodeNone ("garbage line\n".data)
     ("a, b, c, d, INFO: m, extra_info: x".data) (by decide)⟩

/-- C10: loading logs considers only the files of the folder whose names
match the glob `*.log` (ending in ".log" and not hidden); a missing folder
yields the empty table, and so does a folder with no matching files — in all
cases the loader returns normally. -/
theorem C10_glob_filter :
    (∀ (J : Type) (decode : List Char → Option J), load_logs decode none = []) ∧
    (∀ (J : Type) (decode : List Char → Option J) (entries : List FileEntry),
      load_logs decode (some entries) =
        load_logs decode (some (entries.filter (fun e => matchesLogGlob e.name)))) ∧
    (∀ (J : Type) (decode : List Char → Option J) (entries : List FileEntry),
      entries.filter (fun e => matchesLogGlob e.name) = [] →
      load_logs decode (some entries) = []) := by
  refine ⟨fun J decode => rfl, ?_, ?_⟩
  · intro J decode entries
    simp [load_logs, List.filter_filter]
  · intro J decode entries h
    simp [load_logs, h]

/-- C10 witness: a nonexistent folder and a folder holding only `notes.txt`
and the hidden `.log` both load to the empty table. -/
theorem C10_glob_filter_witness :
    load_logs decodeNone none = [] ∧
    load_logs decodeNone
      (some [⟨"notes.txt".data, [exSepLine]⟩, ⟨".log".data, [exSepLine]⟩]) = [] :=
  ⟨C10_glob_filter.1 Unit decodeNone,
   C10_glob_filter.2.2 Unit decodeNone
     [⟨"notes.txt".data, [exSepLine]⟩, ⟨".log".data, [exSepLine]⟩] (by decide)⟩

end LogViewer
